import Mathlib

/-!
Verification of the gutsmail email-import pipeline.

Shallow embedding of the import route (retry wrapper, batch scheduler,
dedup filter, per-item enrichment bookkeeping, daily-insight upsert) and of
the Gemini response-handling helpers, with theorems settling the frozen
claims about them.
-/

set_option linter.unusedVariables false

namespace Gutsmail

/-- Model of a JavaScript Error value: only the message field is inspected
by the pipeline. -/
structure GError where
  message : String
deriving DecidableEq, Repr

/-- Containment of a character sequence in another, modelling
String.prototype.includes. -/
def containsSeq (pat : List Char) : List Char → Bool
  | [] => pat.isEmpty
  | c :: t => pat.isPrefixOf (c :: t) || containsSeq pat t

/-- Embedding of the rate-limit classification in retryWithBackoff:
error.message.includes of "429" or of "Resource exhausted". -/
def is429 (e : GError) : Bool :=
  containsSeq "429".toList e.message.toList
    || containsSeq "Resource exhausted".toList e.message.toList

/-- The generic error thrown after the retry loop exits without returning
(reachable only when maxRetries = 0). -/
def maxRetriesError : GError := ⟨"Max retries exceeded"⟩

/-- Observable trace of one retryWithBackoff run: the final outcome, how
many times the wrapped operation was invoked, and the list of sleep
durations (in ms, rationals since jitter is Math.random scaled). -/
structure RetryTrace (α : Type) where
  result : Except GError α
  invocations : Nat
  sleeps : List ℚ
deriving Repr

/-- Embedding of the retry loop body of retryWithBackoff, starting at a
given attempt index; gas is the number of loop iterations still allowed
(maxRetries - attempt), so the loop guard attempt < maxRetries becomes
gas > 0. The operation is modelled as a function from the attempt index
to the outcome of that invocation, and the jitter stream as a function
from the attempt index to the Math.random() * 1000 value drawn on that
attempt. -/
def retryAux {α : Type} (fn : Nat → Except GError α) (jitter : Nat → ℚ)
    (baseDelay : ℚ) (maxRetries : Nat) : Nat → Nat → RetryTrace α
  | _, 0 => ⟨.error maxRetriesError, 0, []⟩
  | attempt, gas + 1 =>
    match fn attempt with
    | .ok v => ⟨.ok v, 1, []⟩
    | .error e =>
      -- throw when the error is not rate-limited or this was the last attempt
      if is429 e && !(attempt == maxRetries - 1) then
        let delay := baseDelay * 2 ^ attempt
        let totalDelay := delay + jitter attempt
        let rest := retryAux fn jitter baseDelay maxRetries (attempt + 1) gas
        ⟨rest.result, rest.invocations + 1, totalDelay :: rest.sleeps⟩
      else
        ⟨.error e, 1, []⟩

/-- Embedding of retryWithBackoff (src/unnamed/part_017 lines 21-49):
run the loop from attempt 0 with defaults maxRetries = 5 and
baseDelay = 1000 ms. -/
def retryWithBackoff {α : Type} (fn : Nat → Except GError α) (jitter : Nat → ℚ)
    (maxRetries : Nat := 5) (baseDelay : ℚ := 1000) : RetryTrace α :=
  retryAux fn jitter baseDelay maxRetries 0 maxRetries

/-- Pulling the head off a map over an initial segment of indices shifted
by a. -/
lemma range_map_shift (f : Nat → ℚ) (a k : Nat) :
    (List.range (k + 1)).map (fun n => f (a + n)) =
      f a :: (List.range k).map (fun n => f (a + 1 + n)) := by
  rw [List.range_succ_eq_map]
  simp only [List.map_cons, List.map_map, Nat.add_zero]
  refine congrArg (f a :: ·) (List.map_congr_left ?_)
  intro n _
  simp only [Function.comp_apply, Nat.succ_eq_add_one]
  congr 1
  omega

/-- Shape of a retryAux run that fails rate-limited on k consecutive
attempts starting at a and succeeds on attempt a + k, provided the
attempt budget allows it. -/
lemma retryAux_ok {α : Type} (fn : Nat → Except GError α) (jitter : Nat → ℚ)
    (base : ℚ) (mR : Nat) (v : α) :
    ∀ (k a gas : Nat), a + k < mR → a + gas = mR →
    (∀ n, n < k → ∃ e, fn (a + n) = .error e ∧ is429 e = true) →
    fn (a + k) = .ok v →
    retryAux fn jitter base mR a gas =
      ⟨.ok v, k + 1, (List.range k).map (fun n => base * 2 ^ (a + n) + jitter (a + n))⟩ := by
  intro k
  induction k with
  | zero =>
    intro a gas hk hgas hfail hok
    obtain ⟨g, rfl⟩ : ∃ g, gas = g + 1 := ⟨gas - 1, by omega⟩
    simp only [Nat.add_zero] at hok
    simp [retryAux, hok]
  | succ k ih =>
    intro a gas hk hgas hfail hok
    obtain ⟨g, rfl⟩ : ∃ g, gas = g + 1 := ⟨gas - 1, by omega⟩
    obtain ⟨e, he, h429⟩ := hfail 0 (Nat.succ_pos k)
    simp only [Nat.add_zero] at he
    have hne : (a == mR - 1) = false := by
      simp only [beq_eq_false_iff_ne]
      omega
    have hrest := ih (a + 1) g (by omega) (by omega)
      (fun n hn => by
        obtain ⟨w, hw, h429w⟩ := hfail (n + 1) (by omega)
        refine ⟨w, ?_, h429w⟩
        rwa [show a + 1 + n = a + (n + 1) by omega])
      (by rwa [show a + 1 + k = a + (k + 1) by omega])
    simp only [retryAux, he, h429, hne, Bool.not_false, Bool.and_self, if_true, hrest]
    congr 1
    exact (range_map_shift (fun m => base * 2 ^ m + jitter m) a k).symm

/-- retryAux makes at most gas invocations of the operation. -/
lemma retryAux_invocations_le {α : Type} (fn : Nat → Except GError α)
    (jitter : Nat → ℚ) (base : ℚ) (mR : Nat) :
    ∀ (gas a : Nat), (retryAux fn jitter base mR a gas).invocations ≤ gas := by
  intro gas
  induction gas with
  | zero => intro a; simp [retryAux]
  | succ g ih =>
    intro a
    simp only [retryAux]
    cases fn a with
    | ok v => exact Nat.le_add_left 1 g
    | error e =>
      by_cases h : (is429 e && !(a == mR - 1)) = true
      · simp only [h, if_true]
        exact Nat.succ_le_succ (ih (a + 1))
      · simp only [h, if_false, Bool.false_eq_true]
        exact Nat.le_add_left 1 g

/-- When from attempt a on every attempt up to the budget fails
rate-limited, the loop propagates the error of the final attempt. -/
lemma retryAux_exhausted {α : Type} (fn : Nat → Except GError α)
    (jitter : Nat → ℚ) (base : ℚ) (mR : Nat) (e : GError) :
    ∀ (gas a : Nat), a + gas = mR → 1 ≤ gas →
    (∀ n, n < mR → ∃ w, fn n = .error w ∧ is429 w = true) →
    fn (mR - 1) = .error e →
    (retryAux fn jitter base mR a gas).result = .error e := by
  intro gas
  induction gas with
  | zero => intro a _ h1; omega
  | succ g ih =>
    intro a hgas _ hfail hlast
    by_cases hg : g = 0
    · subst hg
      have ha : a = mR - 1 := by omega
      subst ha
      simp [retryAux, hlast]
    · obtain ⟨w, hw, h429w⟩ := hfail a (by omega)
      have hne : (a == mR - 1) = false := by
        simp only [beq_eq_false_iff_ne]
        omega
      simp only [retryAux, hw, h429w, hne, Bool.not_false, Bool.and_self, if_true]
      exact ih (a + 1) (by omega) (by omega) hfail hlast

/-- C1: when the operation fails rate-limited (message containing 429 or
Resource exhausted) on its first k attempts, k < maxRetries, and succeeds
on attempt k + 1, retryWithBackoff returns the successful result, invokes
the operation exactly k + 1 times and sleeps exactly k times, the n-th
sleep lying in the half-open interval from base * 2 ^ (n - 1) to
base * 2 ^ (n - 1) + 1000 (here indexed from 0), given that each jitter
draw lies in the interval from 0 to 1000. -/
theorem retry_success_after_k_failures {α : Type} (fn : Nat → Except GError α)
    (jitter : Nat → ℚ) (mR k : Nat) (base : ℚ) (v : α)
    (hk : k < mR)
    (hfail : ∀ n, n < k → ∃ e, fn n = .error e ∧ is429 e = true)
    (hok : fn k = .ok v)
    (hjit : ∀ n, 0 ≤ jitter n ∧ jitter n < 1000) :
    (retryWithBackoff fn jitter mR base).result = .ok v ∧
    (retryWithBackoff fn jitter mR base).invocations = k + 1 ∧
    (retryWithBackoff fn jitter mR base).sleeps.length = k ∧
    ∀ (n : Nat) (hn : n < (retryWithBackoff fn jitter mR base).sleeps.length),
      base * 2 ^ n ≤ (retryWithBackoff fn jitter mR base).sleeps.get ⟨n, hn⟩ ∧
      (retryWithBackoff fn jitter mR base).sleeps.get ⟨n, hn⟩ < base * 2 ^ n + 1000 := by
  have h := retryAux_ok fn jitter base mR v k 0 mR (by omega) (by omega)
    (fun n hn => by simpa using hfail n hn) (by simpa using hok)
  rw [retryWithBackoff, h]
  refine ⟨rfl, rfl, by simp, ?_⟩
  intro n hn
  simp only [List.length_map, List.length_range] at hn
  have hget : ((List.range k).map
      (fun n => base * 2 ^ (0 + n) + jitter (0 + n))).get
        ⟨n, by simpa using hn⟩ = base * 2 ^ n + jitter n := by
    simp [List.get_eq_getElem]
  constructor
  · rw [hget]
    have := (hjit n).1
    linarith
  · rw [hget]
    have := (hjit n).2
    linarith

/-- C1 witness: rate-limited failures on attempts 1-3 and success on
attempt 4 with maxRetries 5 and base 1000, constant jitter 500. -/
theorem retry_success_after_k_failures_witness :
    (retryWithBackoff (fun n => if n < 3 then .error ⟨"429 Too Many Requests"⟩ else .ok 42)
      (fun _ => (500 : ℚ)) 5 1000).result = .ok 42 ∧
    (retryWithBackoff (fun n => if n < 3 then .error ⟨"429 Too Many Requests"⟩ else .ok 42)
      (fun _ => (500 : ℚ)) 5 1000).invocations = 4 ∧
    (retryWithBackoff (fun n => if n < 3 then .error ⟨"429 Too Many Requests"⟩ else .ok 42)
      (fun _ => (500 : ℚ)) 5 1000).sleeps.length = 3 := by
  have h := retry_success_after_k_failures
    (fun n => if n < 3 then .error ⟨"429 Too Many Requests"⟩ else .ok 42)
    (fun _ => (500 : ℚ)) 5 3 1000 42
    (by omega)
    (fun n hn => ⟨⟨"429 Too Many Requests"⟩, by simp [hn], by decide⟩)
    (by norm_num)
    (fun n => by norm_num)
  exact ⟨h.1, h.2.1, h.2.2.1⟩

/-- C2: retryWithBackoff invokes the operation at most maxRetries times;
a non-rate-limited failure on the first attempt ends the run after
exactly one invocation with that error value propagated unmodified and
no sleeps; and when every attempt up to maxRetries fails rate-limited,
the propagated error is the error of the last invocation, not a generic
retries-exceeded wrapper. -/
theorem retry_budget_and_propagation {α : Type} (fn : Nat → Except GError α)
    (jitter : Nat → ℚ) (mR : Nat) (base : ℚ) :
    (retryWithBackoff fn jitter mR base).invocations ≤ mR ∧
    (∀ e, 1 ≤ mR → fn 0 = .error e → is429 e = false →
      retryWithBackoff fn jitter mR base = ⟨.error e, 1, []⟩) ∧
    (∀ e, 1 ≤ mR →
      (∀ n, n < mR → ∃ w, fn n = .error w ∧ is429 w = true) →
      fn (mR - 1) = .error e →
      (retryWithBackoff fn jitter mR base).result = .error e) := by
  refine ⟨retryAux_invocations_le fn jitter base mR mR 0, ?_, ?_⟩
  · intro e h1 h0 hnot
    obtain ⟨g, hg⟩ : ∃ g, mR = g + 1 := ⟨mR - 1, by omega⟩
    rw [retryWithBackoff, hg]
    simp [retryAux, h0, hnot]
  · intro e h1 hfail hlast
    exact retryAux_exhausted fn jitter base mR e mR 0 (by omega) h1 hfail hlast

/-- C2 witness: a non-rate-limited failure on the first attempt is
propagated unmodified after exactly one invocation. -/
theorem retry_budget_and_propagation_witness :
    retryWithBackoff (fun _ => (.error ⟨"boom"⟩ : Except GError Nat))
      (fun _ => (0 : ℚ)) 5 1000 = ⟨.error ⟨"boom"⟩, 1, []⟩ ∧
    (retryWithBackoff (fun _ => (.error ⟨"boom"⟩ : Except GError Nat))
      (fun _ => (0 : ℚ)) 5 1000).invocations ≤ 5 := by
  have h := retry_budget_and_propagation (fun _ => (.error ⟨"boom"⟩ : Except GError Nat))
    (fun _ => (0 : ℚ)) 5 1000
  exact ⟨h.2.1 ⟨"boom"⟩ (by omega) rfl (by decide), h.1⟩

/-- Embedding of the batching loop skeleton (src/unnamed/part_017 lines
141-274) with BATCH_SIZE = 4: the loop takes slice i to i + 4 as the next
batch and pauses for BATCH_DELAY_MS afterwards exactly when i + 4 is
still below the list length, i.e. when items remain after this batch.
Returns the list of scheduled batches in order and the number of
inter-batch pauses performed. -/
def batchSchedule {α : Type} : List α → List (List α) × Nat
  | [] => ([], 0)
  | [a] => ([[a]], 0)
  | [a, b] => ([[a, b]], 0)
  | [a, b, c] => ([[a, b, c]], 0)
  | a :: b :: c :: d :: rest =>
    let r := batchSchedule rest
    ([a, b, c, d] :: r.1, (if rest.isEmpty then 0 else 1) + r.2)

/-- Full characterization of the batch schedule: partition in order,
batch sizes, batch count, pause count. -/
lemma batchSchedule_spec {α : Type} (l : List α) :
    (batchSchedule l).1.flatten = l ∧
    (∀ c, c ∈ (batchSchedule l).1 → c.length ≤ 4 ∧ c ≠ []) ∧
    (batchSchedule l).1.length = (l.length + 3) / 4 ∧
    (batchSchedule l).2 = (batchSchedule l).1.length - 1 := by
  induction l using batchSchedule.induct (α := α) with
  | case1 => simp [batchSchedule]
  | case2 a => simp [batchSchedule]
  | case3 a b => simp [batchSchedule]
  | case4 a b c => simp [batchSchedule]
  | case5 a b c d rest ih =>
    obtain ⟨hjoin, hmem, hlen, hpause⟩ := ih
    refine ⟨?_, ?_, ?_, ?_⟩
    · simp only [batchSchedule, List.flatten_cons, hjoin, List.cons_append, List.nil_append]
    · intro c' hc'
      simp only [batchSchedule, List.mem_cons] at hc'
      rcases hc' with rfl | hc'
      · exact ⟨by simp, by simp⟩
      · exact hmem c' hc'
    · simp only [batchSchedule, List.length_cons, hlen]
      omega
    · rcases rest with _ | ⟨y, ys⟩
      · simp [batchSchedule]
      · simp only [batchSchedule, List.isEmpty_cons, Bool.false_eq_true, if_false,
          List.length_cons, hpause, hlen]
        omega

/-- C3: the import loop with batch size 4 partitions the new-item list
into consecutive groups of at most 4 in order (their concatenation is the
input, each group nonempty of size at most 4), schedules exactly
ceil(M/4) batches, processes batches strictly in sequence (the model
recurses on the remainder only after emitting a batch, and importRun
consumes the schedule batch by batch), and performs exactly
ceil(M/4) - 1 inter-batch pauses, the pause being skipped after the last
batch. -/
theorem batch_partition {α : Type} (l : List α) :
    (batchSchedule l).1.flatten = l ∧
    (∀ c, c ∈ (batchSchedule l).1 → c.length ≤ 4 ∧ c ≠ []) ∧
    (batchSchedule l).1.length = (l.length + 3) / 4 ∧
    (batchSchedule l).2 = (batchSchedule l).1.length - 1 :=
  batchSchedule_spec l

/-- C3 witness: nine items produce batches of sizes 4, 4, 1 with exactly
two inter-batch pauses, and a sample batch from the schedule has size at
most 4. -/
theorem batch_partition_witness :
    (batchSchedule (List.range 9)).1.flatten = List.range 9 ∧
    ([4, 5, 6, 7] : List Nat).length ≤ 4 ∧
    (batchSchedule (List.range 9)).1.length = (9 + 3) / 4 ∧
    (batchSchedule (List.range 9)).2 = (batchSchedule (List.range 9)).1.length - 1 := by
  have h := batch_partition (List.range 9)
  exact ⟨h.1, (h.2.1 [4, 5, 6, 7] (by decide)).1, by simpa using h.2.2.1, h.2.2.2⟩

/-- Inbox item as fetched from the mailbox collaborator, modelled with
the fields the import pipeline logic inspects: the source-assigned
message identifier, the subject line, and the sender address (field
named from in the source; renamed since from is a Lean keyword). -/
structure Msg where
  id : String
  subject : String
  sender : String
deriving DecidableEq, Repr

/-- Flags describing detected important info in a message. -/
structure ImportantInfo where
  hasImportant : Bool
  flags : List String
deriving DecidableEq, Repr

/-- Result shape of analyzeEmailComplete: category assignment, summary,
priority score and important-info flags. -/
structure Analysis where
  categoryId : Option String
  summary : String
  priorityScore : Int
  importantInfo : ImportantInfo
deriving DecidableEq, Repr

/-- A prisma.email row as created by the import route, restricted to the
fields the claims are about. importantInfoFlags models
JSON.stringify(flags) when the flag list is nonempty and null otherwise,
keeping the flag list itself in place of its serialization. -/
structure StoredMsg where
  messageId : String
  subject : String
  sender : String
  summary : String
  categoryId : Option String
  aiPriorityScore : Int
  hasImportantInfo : Bool
  importantInfoFlags : Option (List String)
deriving DecidableEq, Repr

/-- The row the route creates for message m with analysis a
(src/unnamed/part_017 lines 184-206). -/
def mkStored (m : Msg) (a : Analysis) : StoredMsg :=
  { messageId := m.id
    subject := m.subject
    sender := m.sender
    summary := a.summary
    categoryId := a.categoryId
    aiPriorityScore := a.priorityScore
    hasImportantInfo := a.importantInfo.hasImportant
    importantInfoFlags :=
      if a.importantInfo.flags.length > 0 then some a.importantInfo.flags else none }

/-- Embedding of prisma.email.findUnique by messageId, as a membership
test on the row list. -/
def existsStored (db : List StoredMsg) (mid : String) : Bool :=
  db.any (fun r => r.messageId == mid)

/-- Per-item result classification mirroring the objects returned from
the batch map: success, success with skipped flag, or failure. -/
inductive Outcome where
  | success
  | dupSkipped
  | failed
deriving DecidableEq, Repr

/-- Embedding of one iteration of the per-item processing closure
(src/unnamed/part_017 lines 152-256). The analysis collaborator wrapped
in retryWithBackoff is modelled by its final outcome per message; on an
analysis error the catch block records a failure and writes nothing; on
success the route re-checks for an existing row by messageId and either
skips (duplicate) or creates the enriched row. The sender-profile upsert
and the optional archive call (lines 212-248) do not touch the email
table or the counters and are not represented. -/
def processItem (analyze : Msg → Except GError Analysis) (db : List StoredMsg)
    (m : Msg) : Outcome × List StoredMsg :=
  match analyze m with
  | .error _ => (.failed, db)
  | .ok a =>
    if existsStored db m.id then (.dupSkipped, db)
    else (.success, db ++ [mkStored m a])

/-- Sequential processing of a list of messages, threading the row list;
returns each message paired with its outcome, in order. -/
def processSeq (analyze : Msg → Except GError Analysis) :
    List StoredMsg → List Msg → List (Msg × Outcome) × List StoredMsg
  | db, [] => ([], db)
  | db, m :: rest =>
    let p := processItem analyze db m
    let q := processSeq analyze p.2 rest
    ((m, p.1) :: q.1, q.2)

/-- Batch-by-batch processing: each scheduled batch settles before the
next one starts (src/unnamed/part_017 lines 144-274). -/
def processBatches (analyze : Msg → Except GError Analysis) :
    List StoredMsg → List (List Msg) → List (Msg × Outcome) × List StoredMsg
  | db, [] => ([], db)
  | db, c :: cs =>
    let p := processSeq analyze db c
    let q := processBatches analyze p.2 cs
    (p.1 ++ q.1, q.2)

/-- The error strings accumulated by the catch block: one entry per
failed item, built from its subject (src/unnamed/part_017 line 254). -/
def errorsOf (ps : List (Msg × Outcome)) : List String :=
  ps.filterMap (fun p =>
    match p.2 with
    | .failed => some ("Failed to process email: " ++ p.1.subject)
    | _ => none)

/-- The summary object returned to the caller
(src/unnamed/part_017 lines 348-353). -/
structure RunSummary where
  imported : Nat
  skipped : Nat
  errors : List String
deriving DecidableEq, Repr

/-- Embedding of the import run over an already-fetched message list
(src/unnamed/part_017 lines 118-274): prefilter against existing rows
(existing items increment skipped), schedule the remaining new items in
batches of 4, process them, and accumulate imported, skipped and error
counters from the per-item results. -/
def importRun (analyze : Msg → Except GError Analysis) (db : List StoredMsg)
    (fetched : List Msg) : RunSummary × List StoredMsg :=
  let preSkipped := (fetched.filter (fun m => existsStored db m.id)).length
  let newEmails := fetched.filter (fun m => !existsStored db m.id)
  let chunks := (batchSchedule newEmails).1
  let p := processBatches analyze db chunks
  ({ imported := p.1.countP (fun q => q.2 == Outcome.success)
     skipped := preSkipped + p.1.countP (fun q => q.2 == Outcome.dupSkipped)
     errors := errorsOf p.1 }, p.2)

/-- A user category definition (read-only input to enrichment). -/
structure Category where
  id : String
  name : String
  description : String
deriving DecidableEq, Repr

/-- A configured Gmail account row. -/
structure Account where
  id : String
  email : String
deriving DecidableEq, Repr

/-- An HTTP error response from the route. -/
structure ErrResponse where
  status : Nat
  error : String
  details : String
deriving DecidableEq, Repr

/-- The per-day email insight row (DailyActivityRecord). -/
structure Insight where
  emailsProcessed : Nat
  emailsArchived : Nat
  timeSavedMins : Nat
deriving DecidableEq, Repr

/-- Embedding of the prisma.emailInsight.upsert performed after a run
(src/unnamed/part_017 lines 276-299), on a store keyed by day: create
the day record initialized with the run counts, or increment an existing
record by them; Math.floor(imported * 2) is imported * 2 on naturals. -/
def upsertInsight (store : Nat → Option Insight) (today : Nat)
    (imported : Nat) : Nat → Option Insight :=
  fun d =>
    if d = today then
      match store today with
      | none => some ⟨imported, imported, imported * 2⟩
      | some r => some ⟨r.emailsProcessed + imported, r.emailsArchived + imported,
          r.timeSavedMins + imported * 2⟩
    else store d

/-- Embedding of the POST route body after session validation
(src/unnamed/part_017 lines 62-361), with each external read modelled by
its outcome: the category read and the account-list read abort the run
with a 500 response when they fail; when active accounts exist, each
account fetch is attempted and a failing account is logged and skipped
(its messages are simply absent); with no accounts the fallback fetch is
used and its failure aborts the run; then the import loop runs and the
daily insight is upserted with the imported count. -/
def postRoute (categories : Except GError (List Category))
    (gmailAccounts : Except GError (List Account))
    (accountFetch : Account → Except GError (List Msg))
    (fallbackFetch : Except GError (List Msg))
    (analyze : Msg → Except GError Analysis)
    (db : List StoredMsg) (insights : Nat → Option Insight) (today : Nat) :
    Except ErrResponse RunSummary × List StoredMsg × (Nat → Option Insight) :=
  match categories with
  | .error e => (.error ⟨500, "Failed to import emails", e.message⟩, db, insights)
  | .ok _cats =>
    match gmailAccounts with
    | .error e => (.error ⟨500, "Failed to import emails", e.message⟩, db, insights)
    | .ok accounts =>
      match (if accounts.isEmpty then fallbackFetch
             else .ok (accounts.foldl (fun acc a =>
               match accountFetch a with
               | .ok ms => acc ++ ms
               | .error _ => acc) [])) with
      | .error e => (.error ⟨500, "Failed to import emails", e.message⟩, db, insights)
      | .ok fetched =>
        let p := importRun analyze db fetched
        (.ok p.1, p.2, upsertInsight insights today p.1.imported)

/-- Sequential processing splits over list append. -/
lemma processSeq_append (analyze : Msg → Except GError Analysis)
    (db : List StoredMsg) (l1 l2 : List Msg) :
    processSeq analyze db (l1 ++ l2) =
      ((processSeq analyze db l1).1
        ++ (processSeq analyze (processSeq analyze db l1).2 l2).1,
       (processSeq analyze (processSeq analyze db l1).2 l2).2) := by
  induction l1 generalizing db with
  | nil => simp [processSeq]
  | cons m rest ih => simp [processSeq, ih]

/-- Batch-by-batch processing equals sequential processing of the
concatenation of the batches. -/
lemma processBatches_flatten (analyze : Msg → Except GError Analysis)
    (db : List StoredMsg) (cs : List (List Msg)) :
    processBatches analyze db cs = processSeq analyze db cs.flatten := by
  induction cs generalizing db with
  | nil => simp [processBatches, processSeq]
  | cons c cs ih => simp [processBatches, List.flatten_cons, processSeq_append, ih]

/-- Each processed message yields exactly one outcome pair. -/
lemma processSeq_length (analyze : Msg → Except GError Analysis)
    (db : List StoredMsg) (l : List Msg) :
    (processSeq analyze db l).1.length = l.length := by
  induction l generalizing db with
  | nil => simp [processSeq]
  | cons m rest ih => simp [processSeq, ih]

/-- Every outcome pair is counted in exactly one of the three buckets. -/
lemma outcome_counts (ps : List (Msg × Outcome)) :
    ps.countP (fun q => q.2 == Outcome.success)
      + ps.countP (fun q => q.2 == Outcome.dupSkipped)
      + (errorsOf ps).length = ps.length := by
  induction ps with
  | nil => simp [errorsOf]
  | cons p ps ih =>
    rcases p with ⟨m, o⟩
    cases o <;>
      simp only [errorsOf, List.filterMap_cons, List.countP_cons, List.length_cons] at * <;>
      simp_all <;> omega

/-- A filter over two complementary boolean conditions partitions the
list length. -/
lemma filter_partition_length {α : Type} (p : α → Bool) (l : List α) :
    (l.filter p).length + (l.filter (fun x => !p x)).length = l.length := by
  induction l with
  | nil => rfl
  | cons x xs ih =>
    cases hp : p x <;> simp [List.filter_cons, hp] <;> omega

/-- existsStored tests membership of the identifier among stored
identifiers. -/
lemma existsStored_iff (db : List StoredMsg) (x : String) :
    existsStored db x = true ↔ x ∈ db.map (fun r => r.messageId) := by
  simp only [existsStored, List.any_eq_true, List.mem_map, beq_iff_eq]

/-- A missing identifier has no matching rows. -/
lemma filter_eq_nil_of_not_exists (db : List StoredMsg) (x : String)
    (h : existsStored db x = false) :
    db.filter (fun r => r.messageId == x) = [] := by
  rw [List.filter_eq_nil_iff]
  intro r hr hcon
  have hh : existsStored db x = true := by
    simp only [existsStored, List.any_eq_true]
    exact ⟨r, hr, hcon⟩
  rw [hh] at h
  exact Bool.noConfusion h

/-- Identifier presence persists when rows are appended. -/
lemma existsStored_append_left (db rows : List StoredMsg) (x : String)
    (h : existsStored db x = true) : existsStored (db ++ rows) x = true := by
  simp only [existsStored] at h ⊢
  simp [List.any_append, h]

/-- One processing step neither removes rows for an already-present
identifier nor adds rows for it; presence is preserved. -/
lemma processItem_preserves_existing (analyze : Msg → Except GError Analysis)
    (db : List StoredMsg) (m : Msg) (x : String)
    (h : existsStored db x = true) :
    (processItem analyze db m).2.filter (fun r => r.messageId == x)
        = db.filter (fun r => r.messageId == x) ∧
    existsStored (processItem analyze db m).2 x = true := by
  cases hana : analyze m with
  | error e => simp [processItem, hana, h]
  | ok a =>
    by_cases hex : existsStored db m.id = true
    · simp [processItem, hana, hex, h]
    · have hne : m.id ≠ x := fun hc => by
        rw [hc] at hex
        exact hex h
      have hrow : ([mkStored m a].filter (fun r => r.messageId == x)) = [] := by
        simp [mkStored, hne]
      have hbranch : (processItem analyze db m).2 = db ++ [mkStored m a] := by
        simp [processItem, hana, hex]
      rw [hbranch]
      constructor
      · rw [List.filter_append, hrow, List.append_nil]
      · exact existsStored_append_left db [mkStored m a] x h

/-- Sequential processing
neither removes rows for an already-present identifier nor adds rows
for it. -/
lemma processSeq_preserves_existing (analyze : Msg → Except GError Analysis)
    (l : List Msg) :
    ∀ (db : List StoredMsg) (x : String), existsStored db x = true →
    (processSeq analyze db l).2.filter (fun r => r.messageId == x)
        = db.filter (fun r => r.messageId == x) := by
  induction l with
  | nil => intro db x h; simp [processSeq]
  | cons m rest ih =>
    intro db x h
    obtain ⟨hfilter, hmono⟩ := processItem_preserves_existing analyze db m x h
    simp only [processSeq]
    rw [ih (processItem analyze db m).2 x hmono, hfilter]

/-- Processing messages none of which carries identifier x adds no row
with identifier x. -/
lemma processSeq_preserves_foreign (analyze : Msg → Except GError Analysis)
    (l : List Msg) :
    ∀ (db : List StoredMsg) (x : String), (∀ m, m ∈ l → m.id ≠ x) →
    (processSeq analyze db l).2.filter (fun r => r.messageId == x)
        = db.filter (fun r => r.messageId == x) := by
  induction l with
  | nil => intro db x _; simp [processSeq]
  | cons m rest ih =>
    intro db x hids
    have hm : m.id ≠ x := hids m (List.mem_cons_self m rest)
    have hstep : (processItem analyze db m).2.filter (fun r => r.messageId == x)
        = db.filter (fun r => r.messageId == x) := by
      cases hana : analyze m with
      | error e => simp [processItem, hana]
      | ok a =>
        by_cases hex : existsStored db m.id = true
        · simp [processItem, hana, hex]
        · have hbranch : (processItem analyze db m).2 = db ++ [mkStored m a] := by
            simp [processItem, hana, hex]
          have hrow : ([mkStored m a].filter (fun r => r.messageId == x)) = [] := by
            simp [mkStored, hm]
          rw [hbranch, List.filter_append, hrow, List.append_nil]
    simp only [processSeq]
    rw [ih (processItem analyze db m).2 x (fun w hw => hids w (List.mem_cons_of_mem m hw)),
      hstep]

/-- One processing step preserves distinctness of stored identifiers:
a row is only created after the duplicate check fails to find its
identifier. -/
lemma processItem_nodup (analyze : Msg → Except GError Analysis)
    (db : List StoredMsg) (m : Msg)
    (h : (db.map (fun r => r.messageId)).Nodup) :
    ((processItem analyze db m).2.map (fun r => r.messageId)).Nodup := by
  cases hana : analyze m with
  | error e => simpa [processItem, hana] using h
  | ok a =>
    by_cases hex : existsStored db m.id = true
    · simpa [processItem, hana, hex] using h
    · have hbranch : (processItem analyze db m).2 = db ++ [mkStored m a] := by
        simp [processItem, hana, hex]
      rw [hbranch, List.map_append, List.nodup_append]
      refine ⟨h, by simp, ?_⟩
      intro y hy hy2
      simp only [mkStored, List.map_cons, List.map_nil, List.mem_singleton] at hy2
      subst hy2
      exact hex ((existsStored_iff db m.id).mpr hy)

/-- Sequential processing preserves distinctness of stored identifiers. -/
lemma processSeq_nodup (analyze : Msg → Except GError Analysis) (l : List Msg) :
    ∀ (db : List StoredMsg), (db.map (fun r => r.messageId)).Nodup →
    ((processSeq analyze db l).2.map (fun r => r.messageId)).Nodup := by
  induction l with
  | nil => intro db h; simpa [processSeq] using h
  | cons m rest ih =>
    intro db h
    simp only [processSeq]
    exact ih (processItem analyze db m).2 (processItem_nodup analyze db m h)

/-- errorsOf splits over append. -/
lemma errorsOf_append (l1 l2 : List (Msg × Outcome)) :
    errorsOf (l1 ++ l2) = errorsOf l1 ++ errorsOf l2 := by
  simp [errorsOf, List.filterMap_append]

/-- The import run in terms of sequential processing of the prefiltered
new-message list: batching does not change the processed sequence. -/
lemma importRun_eq (analyze : Msg → Except GError Analysis) (db : List StoredMsg)
    (fetched : List Msg) :
    importRun analyze db fetched =
      (⟨(processSeq analyze db (fetched.filter (fun m => !existsStored db m.id))).1.countP
          (fun q => q.2 == Outcome.success),
        (fetched.filter (fun m => existsStored db m.id)).length
          + (processSeq analyze db
              (fetched.filter (fun m => !existsStored db m.id))).1.countP
            (fun q => q.2 == Outcome.dupSkipped),
        errorsOf (processSeq analyze db
          (fetched.filter (fun m => !existsStored db m.id))).1⟩,
       (processSeq analyze db (fetched.filter (fun m => !existsStored db m.id))).2) := by
  simp only [importRun, processBatches_flatten, (batchSchedule_spec _).1]

/-- C10: every fetched message is counted in exactly one of the three
buckets: the returned summary satisfies imported + skipped +
length of errors = number of fetched messages. -/
theorem import_accounting (analyze : Msg → Except GError Analysis)
    (db : List StoredMsg) (fetched : List Msg) :
    (importRun analyze db fetched).1.imported
      + (importRun analyze db fetched).1.skipped
      + (importRun analyze db fetched).1.errors.length = fetched.length := by
  rw [importRun_eq]
  dsimp only
  have h1 := outcome_counts
    (processSeq analyze db (fetched.filter (fun m => !existsStored db m.id))).1
  have h2 := processSeq_length analyze db
    (fetched.filter (fun m => !existsStored db m.id))
  have h3 := filter_partition_length (fun m => existsStored db m.id) fetched
  omega

/-- C4: a fetched item whose identifier already has a stored row never
gains a second row and is counted toward skipped, never imported:
removing it from the fetched list leaves the run unchanged except that
skipped drops by one, the rows matching its identifier after the run are
exactly those before it, and distinctness of stored identifiers is
preserved by the run. -/
theorem import_skip_existing (analyze : Msg → Except GError Analysis)
    (db : List StoredMsg) (pre post : List Msg) (m : Msg)
    (hex : existsStored db m.id = true) :
    (importRun analyze db (pre ++ m :: post)).1.imported
        = (importRun analyze db (pre ++ post)).1.imported ∧
    (importRun analyze db (pre ++ m :: post)).1.skipped
        = (importRun analyze db (pre ++ post)).1.skipped + 1 ∧
    (importRun analyze db (pre ++ m :: post)).1.errors
        = (importRun analyze db (pre ++ post)).1.errors ∧
    (importRun analyze db (pre ++ m :: post)).2
        = (importRun analyze db (pre ++ post)).2 ∧
    (importRun analyze db (pre ++ m :: post)).2.filter (fun r => r.messageId == m.id)
        = db.filter (fun r => r.messageId == m.id) ∧
    ((db.map (fun r => r.messageId)).Nodup →
      ((importRun analyze db (pre ++ m :: post)).2.map (fun r => r.messageId)).Nodup) := by
  have hnew : (pre ++ m :: post).filter (fun w => !existsStored db w.id)
      = (pre ++ post).filter (fun w => !existsStored db w.id) := by
    simp [List.filter_append, List.filter_cons, hex]
  have hpre : ((pre ++ m :: post).filter (fun w => existsStored db w.id)).length
      = ((pre ++ post).filter (fun w => existsStored db w.id)).length + 1 := by
    simp only [List.filter_append, List.filter_cons, hex, if_true, List.length_append,
      List.length_cons]
    omega
  rw [importRun_eq, importRun_eq, hnew, hpre]
  dsimp only
  refine ⟨rfl, by omega, rfl, rfl, ?_, ?_⟩
  · exact processSeq_preserves_existing analyze _ db m.id hex
  · intro hnd
    exact processSeq_nodup analyze _ db hnd

/-- C4 witness: with one stored row for identifier m1, importing a
fetched copy of m1 adds one to skipped relative to the run without it,
changes nothing else, and leaves the rows for m1 untouched. -/
theorem import_skip_existing_witness :
    (importRun (fun _ => .error ⟨"unused"⟩)
        [⟨"m1", "old subject", "a@b", "sum", none, 50, false, none⟩]
        [⟨"m1", "new subject", "a@b"⟩]).1.skipped
      = (importRun (fun _ => .error ⟨"unused"⟩)
          [⟨"m1", "old subject", "a@b", "sum", none, 50, false, none⟩] []).1.skipped + 1 ∧
    (importRun (fun _ => .error ⟨"unused"⟩)
        [⟨"m1", "old subject", "a@b", "sum", none, 50, false, none⟩]
        [⟨"m1", "new subject", "a@b"⟩]).2.filter (fun r => r.messageId == "m1")
      = [⟨"m1", "old subject", "a@b", "sum", none, 50, false, none⟩].filter
          (fun r => r.messageId == "m1") := by
  have h := import_skip_existing (fun _ => .error ⟨"unused"⟩)
    [⟨"m1", "old subject", "a@b", "sum", none, 50, false, none⟩]
    [] [] ⟨"m1", "new subject", "a@b"⟩ (by decide)
  exact ⟨h.2.1, h.2.2.2.2.1⟩

/-- C5: an item whose analysis call fails does not abort the run: it
contributes the string built from its subject to the error list, no row
is created for its identifier (given it was not stored and no other
fetched item shares its identifier), it is counted in neither imported
nor skipped (removing it leaves both counts unchanged and shortens the
error list by one), and the rest of the run including the final rows is
unchanged, the caller still receiving the full summary. -/
theorem import_failed_item (analyze : Msg → Except GError Analysis)
    (db : List StoredMsg) (pre post : List Msg) (m : Msg) (e : GError)
    (hnew : existsStored db m.id = false)
    (hfail : analyze m = .error e)
    (hforeign : ∀ w, w ∈ pre ++ post → w.id ≠ m.id) :
    ("Failed to process email: " ++ m.subject)
        ∈ (importRun analyze db (pre ++ m :: post)).1.errors ∧
    (importRun analyze db (pre ++ m :: post)).1.imported
        = (importRun analyze db (pre ++ post)).1.imported ∧
    (importRun analyze db (pre ++ m :: post)).1.skipped
        = (importRun analyze db (pre ++ post)).1.skipped ∧
    (importRun analyze db (pre ++ m :: post)).1.errors.length
        = (importRun analyze db (pre ++ post)).1.errors.length + 1 ∧
    (importRun analyze db (pre ++ m :: post)).2
        = (importRun analyze db (pre ++ post)).2 ∧
    (importRun analyze db (pre ++ m :: post)).2.filter
        (fun r => r.messageId == m.id) = [] := by
  have hsplitWith : (pre ++ m :: post).filter (fun w => !existsStored db w.id)
      = pre.filter (fun w => !existsStored db w.id)
        ++ m :: post.filter (fun w => !existsStored db w.id) := by
    simp [List.filter_append, List.filter_cons, hnew]
  have hsplitWo : (pre ++ post).filter (fun w => !existsStored db w.id)
      = pre.filter (fun w => !existsStored db w.id)
        ++ post.filter (fun w => !existsStored db w.id) := by
    simp [List.filter_append]
  have hpreEq : (pre ++ m :: post).filter (fun w => existsStored db w.id)
      = (pre ++ post).filter (fun w => existsStored db w.id) := by
    simp [List.filter_append, List.filter_cons, hnew]
  have hWith : processSeq analyze db
      (pre.filter (fun w => !existsStored db w.id)
        ++ m :: post.filter (fun w => !existsStored db w.id))
      = ((processSeq analyze db (pre.filter (fun w => !existsStored db w.id))).1
          ++ (m, Outcome.failed)
          :: (processSeq analyze
              (processSeq analyze db (pre.filter (fun w => !existsStored db w.id))).2
              (post.filter (fun w => !existsStored db w.id))).1,
         (processSeq analyze
            (processSeq analyze db (pre.filter (fun w => !existsStored db w.id))).2
            (post.filter (fun w => !existsStored db w.id))).2) := by
    rw [processSeq_append]
    simp [processSeq, processItem, hfail]
  have hWo : processSeq analyze db
      (pre.filter (fun w => !existsStored db w.id)
        ++ post.filter (fun w => !existsStored db w.id))
      = ((processSeq analyze db (pre.filter (fun w => !existsStored db w.id))).1
          ++ (processSeq analyze
              (processSeq analyze db (pre.filter (fun w => !existsStored db w.id))).2
              (post.filter (fun w => !existsStored db w.id))).1,
         (processSeq analyze
            (processSeq analyze db (pre.filter (fun w => !existsStored db w.id))).2
            (post.filter (fun w => !existsStored db w.id))).2) :=
    processSeq_append analyze db _ _
  have hdbFinal : (processSeq analyze
        (processSeq analyze db (pre.filter (fun w => !existsStored db w.id))).2
        (post.filter (fun w => !existsStored db w.id))).2.filter
      (fun r => r.messageId == m.id) = [] := by
    have hids : ∀ w, w ∈ pre.filter (fun v => !existsStored db v.id)
        ++ post.filter (fun v => !existsStored db v.id) → w.id ≠ m.id := by
      intro w hw
      rcases List.mem_append.mp hw with hw | hw
      · exact hforeign w (List.mem_append_left post (List.mem_filter.mp hw).1)
      · exact hforeign w (List.mem_append_right pre (List.mem_filter.mp hw).1)
    have := processSeq_preserves_foreign analyze
      (pre.filter (fun v => !existsStored db v.id)
        ++ post.filter (fun v => !existsStored db v.id)) db m.id hids
    rw [processSeq_append] at this
    rw [this]
    exact filter_eq_nil_of_not_exists db m.id hnew
  rw [importRun_eq, importRun_eq, hsplitWith, hsplitWo, hpreEq, hWith, hWo]
  dsimp only
  refine ⟨?_, ?_, ?_, ?_, rfl, hdbFinal⟩
  · rw [errorsOf_append]
    refine List.mem_append_right _ ?_
    simp [errorsOf]
  · simp [List.countP_append, List.countP_cons]
  · simp [List.countP_append, List.countP_cons]
  · rw [errorsOf_append, errorsOf_append]
    simp only [errorsOf, List.filterMap_cons, List.length_append, List.length_cons]
    omega

/-- C5 witness: a single fetched item whose analysis fails contributes
its subject-based message to the error list, leaves the rows empty, and
is counted in neither imported nor skipped. -/
theorem import_failed_item_witness :
    ("Failed to process email: " ++ "Receipt")
        ∈ (importRun (fun _ => .error ⟨"model crashed"⟩) []
            [⟨"m1", "Receipt", "a@b"⟩]).1.errors ∧
    (importRun (fun _ => .error ⟨"model crashed"⟩) []
        [⟨"m1", "Receipt", "a@b"⟩]).2.filter (fun r => r.messageId == "m1") = [] := by
  have h := import_failed_item (fun _ => .error ⟨"model crashed"⟩) [] [] []
    ⟨"m1", "Receipt", "a@b"⟩ ⟨"model crashed"⟩ (by decide) rfl
    (by intro w hw; simp at hw)
  exact ⟨h.1, h.2.2.2.2.2⟩

/-- C6 counterexample: with one active Gmail account whose fetch fails,
the run does not abort: the per-account catch swallows the error
(src/unnamed/part_017 lines 97-99), the run proceeds over zero messages
and the caller receives a success summary, not an error response. -/
theorem post_account_fetch_failure_not_fatal :
    (postRoute (.ok []) (.ok [⟨"acc1", "user@example.com"⟩])
      (fun _ => .error ⟨"Gmail connection failed"⟩) (.ok [])
      (fun _ => .error ⟨"unused"⟩) [] (fun _ => none) 0).1
      = .ok ⟨0, 0, []⟩ := rfl

/-- C6 amended: failures of the category read or of the account-list
read abort the whole run with a 500 error response and no per-item
processing, as does a failing fallback fetch when no Gmail account is
configured; but when at least one account is configured the route always
returns a summary, a failing per-account fetch being skipped rather than
fatal. -/
theorem post_fatal_setup_failures (categories : Except GError (List Category))
    (gmailAccounts : Except GError (List Account))
    (accountFetch : Account → Except GError (List Msg))
    (fallbackFetch : Except GError (List Msg))
    (analyze : Msg → Except GError Analysis)
    (db : List StoredMsg) (insights : Nat → Option Insight) (today : Nat) :
    (∀ e, categories = .error e →
      postRoute categories gmailAccounts accountFetch fallbackFetch analyze db insights today
        = (.error ⟨500, "Failed to import emails", e.message⟩, db, insights)) ∧
    (∀ cats e, categories = .ok cats → gmailAccounts = .error e →
      postRoute categories gmailAccounts accountFetch fallbackFetch analyze db insights today
        = (.error ⟨500, "Failed to import emails", e.message⟩, db, insights)) ∧
    (∀ cats e, categories = .ok cats → gmailAccounts = .ok [] →
      fallbackFetch = .error e →
      postRoute categories gmailAccounts accountFetch fallbackFetch analyze db insights today
        = (.error ⟨500, "Failed to import emails", e.message⟩, db, insights)) ∧
    (∀ cats accs, categories = .ok cats → gmailAccounts = .ok accs → accs ≠ [] →
      ∃ s, (postRoute categories gmailAccounts accountFetch fallbackFetch
              analyze db insights today).1 = .ok s) := by
  refine ⟨?_, ?_, ?_, ?_⟩
  · rintro e rfl
    rfl
  · rintro cats e rfl rfl
    rfl
  · rintro cats e rfl rfl rfl
    rfl
  · rintro cats accs rfl rfl hne
    have hemp : accs.isEmpty = false := by
      cases accs with
      | nil => exact absurd rfl hne
      | cons a t => rfl
    simp [postRoute, hemp]

/-- C6 amended witness: a failing category read yields the 500 error
response and leaves rows and insights untouched. -/
theorem post_fatal_setup_failures_witness :
    postRoute (.error ⟨"db down"⟩) (.ok []) (fun _ => .ok []) (.ok [])
        (fun _ => .error ⟨"unused"⟩) [] (fun _ => none) 0
      = (.error ⟨500, "Failed to import emails", "db down"⟩, [], fun _ => none) := by
  exact (post_fatal_setup_failures (.error ⟨"db down"⟩) (.ok []) (fun _ => .ok [])
    (.ok []) (fun _ => .error ⟨"unused"⟩) [] (fun _ => none) 0).1 ⟨"db down"⟩ rfl

/-- C9: upserting the daily insight after a run increments the processed
count, the archived count and the minutes-saved figure of the current
day record by imported, imported and imported * 2 respectively (creating
the record from zero when absent), and leaves the record of every other
day exactly as it was. -/
theorem insight_accumulation (store : Nat → Option Insight) (today imported : Nat) :
    (upsertInsight store today imported today).isSome ∧
    ((upsertInsight store today imported today).map Insight.emailsProcessed).getD 0
      = ((store today).map Insight.emailsProcessed).getD 0 + imported ∧
    ((upsertInsight store today imported today).map Insight.emailsArchived).getD 0
      = ((store today).map Insight.emailsArchived).getD 0 + imported ∧
    ((upsertInsight store today imported today).map Insight.timeSavedMins).getD 0
      = ((store today).map Insight.timeSavedMins).getD 0 + imported * 2 ∧
    (∀ d, d ≠ today → upsertInsight store today imported d = store d) := by
  refine ⟨?_, ?_, ?_, ?_, ?_⟩ <;>
    first
      | (intro d hd; simp [upsertInsight, hd])
      | (cases h : store today <;> simp [upsertInsight, h])

/-- C9 witness: creating the day-0 record with imported = 3 sets counts
3, 3, 6 and leaves day 1 absent. -/
theorem insight_accumulation_witness :
    ((upsertInsight (fun _ => none) 0 3 0).map Insight.emailsProcessed).getD 0
      = ((none : Option Insight).map Insight.emailsProcessed).getD 0 + 3 ∧
    ((upsertInsight (fun _ => none) 0 3 0).map Insight.timeSavedMins).getD 0
      = ((none : Option Insight).map Insight.timeSavedMins).getD 0 + 3 * 2 ∧
    upsertInsight (fun _ => none) 0 3 1 = none := by
  have h := insight_accumulation (fun _ => none) 0 3
  exact ⟨h.2.1, h.2.2.2.1, h.2.2.2.2 1 (by decide)⟩

/-- Numeric value of a radix digit character (decimal digits, then
lowercase, then uppercase hex letters). -/
def digitVal (c : Char) : Nat :=
  if c.isDigit then c.toNat - 48
  else if 97 ≤ c.toNat then c.toNat - 87
  else c.toNat - 55

/-- Whether the character is a hexadecimal letter. -/
def isHexLetter (c : Char) : Bool :=
  decide (97 ≤ c.toNat ∧ c.toNat ≤ 102) || decide (65 ≤ c.toNat ∧ c.toNat ≤ 70)

/-- Model of String.prototype.trim: remove leading and trailing
whitespace. -/
def trimJS (s : String) : String :=
  String.mk
    (((s.toList.dropWhile (fun c => c.isWhitespace)).reverse.dropWhile
      (fun c => c.isWhitespace)).reverse)

/-- Model of JavaScript parseInt applied to a string without an explicit
radix: skip leading whitespace, read an optional sign, honor a 0x or 0X
hexadecimal prefix, then read the longest prefix of digits of the radix;
with no digits the result is NaN, modelled as none. -/
def parseIntJS (s : String) : Option Int :=
  let cs0 := s.toList.dropWhile (fun c => c.isWhitespace)
  let sign : Bool × List Char :=
    match cs0 with
    | '-' :: rest => (true, rest)
    | '+' :: rest => (false, rest)
    | _ => (false, cs0)
  let hex : Nat × List Char :=
    match sign.2 with
    | '0' :: 'x' :: rest => (16, rest)
    | '0' :: 'X' :: rest => (16, rest)
    | _ => (10, sign.2)
  let ds := hex.2.takeWhile
    (fun c => if hex.1 = 16 then c.isDigit || isHexLetter c else c.isDigit)
  if ds.isEmpty then none
  else
    let n : Nat := ds.foldl (fun a c => a * hex.1 + digitVal c) 0
    some (if sign.1 then -(n : Int) else (n : Int))

/-- Embedding of calculatePriorityScore (src/unnamed/part_004 lines
75-101), with the analysis collaborator modelled by the outcome of the
generateContent call: on success parse the trimmed response text with
parseInt, return 50 when the parse is NaN and the clamp
Math.min(100, Math.max(0, score)) otherwise; on a thrown error return
50. -/
def calculatePriorityScore (resp : Except GError String) : Int :=
  match resp with
  | .error _ => 50
  | .ok text =>
    match parseIntJS (trimJS text) with
    | none => 50
    | some n => min 100 (max 0 n)

/-- C7: the derived importance score is always an integer in the range 0
to 100: a response parsing to n yields the clamp min(100, max(0, n)), an
unparseable response or a failed call yields 50, and the function is
total, raising nothing to its caller. -/
theorem priority_score_clamped (resp : Except GError String) :
    0 ≤ calculatePriorityScore resp ∧ calculatePriorityScore resp ≤ 100 ∧
    (∀ e, resp = .error e → calculatePriorityScore resp = 50) ∧
    (∀ s, resp = .ok s → parseIntJS (trimJS s) = none →
      calculatePriorityScore resp = 50) ∧
    (∀ s n, resp = .ok s → parseIntJS (trimJS s) = some n →
      calculatePriorityScore resp = min 100 (max 0 n)) := by
  refine ⟨?_, ?_, ?_, ?_, ?_⟩
  · cases resp with
    | error e => norm_num [calculatePriorityScore]
    | ok s =>
      cases h : parseIntJS (trimJS s) with
      | none => norm_num [calculatePriorityScore, h]
      | some n =>
        simp only [calculatePriorityScore, h]
        exact le_min (by norm_num) (le_max_left 0 n)
  · cases resp with
    | error e => norm_num [calculatePriorityScore]
    | ok s =>
      cases h : parseIntJS (trimJS s) with
      | none => norm_num [calculatePriorityScore, h]
      | some n =>
        simp only [calculatePriorityScore, h]
        exact min_le_left 100 _
  · rintro e rfl
    rfl
  · rintro s rfl h
    simp [calculatePriorityScore, h]
  · rintro s n rfl h
    simp [calculatePriorityScore, h]

/-- C7 witness: the response text "not a number" parses to NaN and the
recorded score is 50, inside the range 0 to 100. -/
theorem priority_score_clamped_witness :
    calculatePriorityScore (.ok "not a number") = 50 ∧
    0 ≤ calculatePriorityScore (.ok "not a number") ∧
    calculatePriorityScore (.ok "not a number") ≤ 100 := by
  have h := priority_score_clamped (.ok "not a number")
  exact ⟨h.2.2.2.1 "not a number" rfl (by decide), h.1, h.2.1⟩

/-- The opening curly brace character. -/
def openBrace : Char := Char.ofNat 123

/-- The closing curly brace character. -/
def closeBrace : Char := Char.ofNat 125

/-- Model of the greedy brace-block regex match used on analysis
responses: it succeeds when an opening brace occurs and a closing brace
occurs at or after it, returning the segment from the first opening
brace through the last closing brace. -/
def extractJsonBlock (s : String) : Option String :=
  let cs := s.toList
  match cs.findIdx? (fun c => c == openBrace), cs.reverse.findIdx? (fun c => c == closeBrace) with
  | some i, some jr =>
    let j := cs.length - 1 - jr
    if i ≤ j then some (String.mk ((cs.drop i).take (j - i + 1))) else none
  | _, _ => none

/-- The shape of a JSON.parse result as accessed by detectImportantInfo:
only the hasImportant and flags fields are read, each possibly absent,
with the JS falsy coalescing of the source modelled by getD. -/
structure ParsedInfo where
  hasImportant : Option Bool
  flags : Option (List String)
deriving DecidableEq, Repr

/-- Embedding of detectImportantInfo (src/unnamed/part_004 lines
103-146), with the generateContent call modelled by its outcome and
JSON.parse by a parser parameter that returns an error on invalid input:
on call failure, on a trimmed response without a brace-delimited block,
or on a parse failure, the catch or fallthrough path returns
hasImportant false with no flags; otherwise the parsed fields are taken
with false and empty-list defaults. -/
def detectImportantInfo (resp : Except GError String)
    (parseJson : String → Except GError ParsedInfo) : ImportantInfo :=
  match resp with
  | .error _ => ⟨false, []⟩
  | .ok text =>
    match extractJsonBlock (trimJS text) with
    | none => ⟨false, []⟩
    | some block =>
      match parseJson block with
      | .error _ => ⟨false, []⟩
      | .ok p => ⟨p.hasImportant.getD false, p.flags.getD []⟩

/-- C8: detectImportantInfo is total and degrades to the empty tag set:
a failed call, a response with no brace-delimited block, or a parse
failure each yield hasImportant false and no flags, and a successful
parse yields the parsed fields with falsy defaults, so an unparseable
analysis can never abort the enclosing item. -/
theorem detect_important_defaults (resp : Except GError String)
    (parseJson : String → Except GError ParsedInfo) :
    (∀ e, resp = .error e →
      detectImportantInfo resp parseJson = ⟨false, []⟩) ∧
    (∀ s, resp = .ok s → extractJsonBlock (trimJS s) = none →
      detectImportantInfo resp parseJson = ⟨false, []⟩) ∧
    (∀ s b e, resp = .ok s → extractJsonBlock (trimJS s) = some b →
      parseJson b = .error e →
      detectImportantInfo resp parseJson = ⟨false, []⟩) ∧
    (∀ s b p, resp = .ok s → extractJsonBlock (trimJS s) = some b →
      parseJson b = .ok p →
      detectImportantInfo resp parseJson
        = ⟨p.hasImportant.getD false, p.flags.getD []⟩) := by
  refine ⟨?_, ?_, ?_, ?_⟩
  · rintro e rfl
    rfl
  · rintro s rfl h
    simp [detectImportantInfo, h]
  · rintro s b e rfl hb hp
    simp [detectImportantInfo, hb, hp]
  · rintro s b p rfl hb hp
    simp [detectImportantInfo, hb, hp]

/-- C8 witness: a response without any brace-delimited block yields the
empty tag set even under a parser that always fails. -/
theorem detect_important_defaults_witness :
    detectImportantInfo (.ok "no json here") (fun _ => .error ⟨"bad json"⟩)
      = ⟨false, []⟩ := by
  exact (detect_important_defaults (.ok "no json here")
    (fun _ => .error ⟨"bad json"⟩)).2.1 "no json here" rfl (by decide)

end Gutsmail
